import Mathlib

/-!
Shallow embedding of the signal/slot core of the capo library
(`src/capo/signal.hpp`), together with theorems checking the
natural-language specification against it.

Modelling conventions:
* Fire-time argument values are modelled as `List Int` (one `Int` per
  parameter of the event signature).
* A registered slot (`detail_signal_::slot_fn`) is modelled by `Capo.Slot`:
  its stored payload (the data `disconnect` compares), a `tag` standing for
  the static type `slot_fn<C, F, R, P...>` that `dynamic_cast` checks, an
  observation id `sid` used to record which slot a call invoked, and a pure
  function `func` giving the result of `call(args)`.
* The registry `slots_` has type `capo::vector<slot*>`.  `capo/vector.hpp`
  is not part of the sources given; per the spec (section 3, Registry) it is
  an ordered compacting sequence: `push_back` appends, `erase` removes one
  position preserving the order of the survivors, `clear` empties.  A
  `slot*` element may in principle be null, hence `List (Option (Slot ...))`.
* Exceptions thrown by a target are modelled with `Except Nat` (a numeric
  error code); dispatch functions return the trace of invoked slots so that
  "which targets executed" is observable.
-/

namespace Capo

/-- The payload stored in a `slot_fn`: either a free callable `F f_;`
(specialisations `slot_fn<void, F, R, P...>`) or a bound receiver/method pair
`C c_; F f_;` (specialisations `slot_fn<C, F, R, P...>`).  Identity values are
drawn from types `γ` (receivers) and `φ` (callables / methods). -/
inductive Payload (γ φ : Type) where
  | free (f : φ)
  | bound (c : γ) (f : φ)
deriving DecidableEq

/-- One registered slot (`detail_signal_::slot_fn<C, F, R, P...>`).
`tag` stands for the concrete static type `slot_fn<C, F, R, P...>`, which is
what the `dynamic_cast` in `disconnect` checks before any value comparison;
`pay` holds the stored payload values (`c_`, `f_`); `sid` is an observation
id used only to record invocations in a trace; `func` is the result of
`call(args)`. -/
structure Slot (γ φ ρ : Type) where
  sid : Nat
  tag : Nat
  pay : Payload γ φ
  func : List Int → ρ

/-- `signal_b::connect` (both overloads): `slots_.push_back(new slot_fn{...})`
appends a freshly constructed (hence non-null) slot at the end. -/
def connect {γ φ ρ : Type} (s : Slot γ φ ρ) (l : List (Option (Slot γ φ ρ))) :
    List (Option (Slot γ φ ρ)) :=
  l ++ [some s]

/-- The match test performed by `signal_b::disconnect(F&&)` on one element of
`slots_`: `dynamic_cast<slot_fn<void, F, R, P...>*>` (a null pointer never
casts successfully, and an entry of a different static type yields `nullptr`,
`continue`), then value equality `sp->f_ == slot`. -/
def freeMatch {γ φ : Type} [DecidableEq φ] {ρ : Type} (t : Nat) (f : φ) :
    Option (Slot γ φ ρ) → Bool
  | none => false
  | some s =>
    match s.pay with
    | .free g => decide (s.tag = t) && decide (g = f)
    | .bound _ _ => false

/-- The match test performed by `signal_b::disconnect(C&&, F&&)` on one
element of `slots_`: `dynamic_cast<slot_fn<C, F, R, P...>*>`, then
`(sp->c_ == receiver) && (sp->f_ == slot)`. -/
def boundMatch {γ φ : Type} [DecidableEq γ] [DecidableEq φ] {ρ : Type}
    (t : Nat) (c : γ) (f : φ) : Option (Slot γ φ ρ) → Bool
  | none => false
  | some s =>
    match s.pay with
    | .free _ => false
    | .bound d g => decide (s.tag = t) && decide (d = c) && decide (g = f)

/-- The scan-and-erase loop shared by both parametrised `disconnect`
overloads: walk `slots_` in order, `delete` and `erase` the first element
satisfying the match test, leave the registry unchanged when nothing
matches. -/
def disconnect_scan {γ φ ρ : Type} (p : Option (Slot γ φ ρ) → Bool) :
    List (Option (Slot γ φ ρ)) → List (Option (Slot γ φ ρ))
  | [] => []
  | e :: es => if p e then es else e :: disconnect_scan p es

/-- `signal_b::disconnect(F&&)`: remove the first slot whose static type and
stored callable value both match. -/
def disconnect_free {γ φ ρ : Type} [DecidableEq φ] (t : Nat) (f : φ)
    (l : List (Option (Slot γ φ ρ))) : List (Option (Slot γ φ ρ)) :=
  disconnect_scan (freeMatch t f) l

/-- `signal_b::disconnect(C&&, F&&)`: remove the first slot whose static type,
stored receiver and stored method all match. -/
def disconnect_bound {γ φ ρ : Type} [DecidableEq γ] [DecidableEq φ]
    (t : Nat) (c : γ) (f : φ) (l : List (Option (Slot γ φ ρ))) :
    List (Option (Slot γ φ ρ)) :=
  disconnect_scan (boundMatch t c f) l

/-- `signal_b::disconnect(void)`: `for (auto sp : slots_) delete sp;
slots_.clear();` — every entry is destroyed and the registry is emptied. -/
def disconnect_all {γ φ ρ : Type} (_l : List (Option (Slot γ φ ρ))) :
    List (Option (Slot γ φ ρ)) :=
  []

/-- `signal<void(P...)>::operator()` for slots whose calls return normally:
walk `slots_` in order, skip null entries (`if (sp == nullptr) continue;`),
and call each remaining slot once with the fire-time arguments.  The value
returned is the trace of calls: the `sid` of each invoked slot paired with
the result its `call` produced, in invocation order. -/
def fire_void_calls {γ φ ρ : Type} (args : List Int) :
    List (Option (Slot γ φ ρ)) → List (Nat × ρ)
  | [] => []
  | none :: es => fire_void_calls args es
  | some s :: es => (s.sid, s.func args) :: fire_void_calls args es

/-- `signal<R(P...)>::operator()` for slots whose calls return normally.
The code: return `R{}` (modelled by the explicit `zero` value) when `slots_`
is empty; otherwise loop `i` over `[0, slots_.size() - 1)` calling
`slots_[i]` with the null-skip, then take `slots_.back()`, return `R{}` if it
is null, else return its call's result.  The first component is the trace of
calls, the second the value `operator()` returns. -/
def fire_result {γ φ ρ : Type} (zero : ρ) (args : List Int)
    (l : List (Option (Slot γ φ ρ))) : List (Nat × ρ) × ρ :=
  match l.getLast? with
  | none => ([], zero)
  | some lastSlot =>
    let front := fire_void_calls args l.dropLast
    match lastSlot with
    | none => (front, zero)
    | some s =>
      let r := s.func args
      (front ++ [(s.sid, r)], r)

/-! ### Arity resolution (`detail_signal_::traits`, `suitable_size`, and
`slot_fn::forward`)

`capo::function_traits` and `capo::types_to_seq` live in headers that are not
among the sources given; they are modelled from the spec (section 4.1):
a target's declared parameter count `M` is either statically known
(`some m`) or unknown (`none`); `size_to_seq<K>` produces the index sequence
`0, 1, ..., K-1`. -/

/-- `detail_signal_::traits<void(P...), F>`, reduced to parameter counts.
Modelled from the spec: `capo::function_traits` (header not in the sources)
reports a callable's declared parameter count when it is statically
determinable; when it is not, `traits` falls back to the traits of the
signature `void(P...)`, whose parameter count is `N`. -/
def traits_count (M : Option Nat) (N : Nat) : Nat :=
  match M with
  | some m => m
  | none => N

/-- `capo::min_number` on two counts. -/
def min_number (a b : Nat) : Nat := min a b

/-- `detail_signal_::suitable_size<F, P...>`: the index sequence
`size_to_seq<min(traits-parameter-count, N)>`, i.e. `0, ..., K-1` with
`K = min(traits_count M N) N`.  (`size_to_seq` is modelled from the spec:
"only the first K of the N fire-time arguments, in original order".) -/
def suitable_size (M : Option Nat) (N : Nat) : List Nat :=
  List.range (min_number (traits_count M N) N)

/-- `slot_fn::forward(constant_seq<N...>, tp)`: apply the stored callable to
`std::get<N>(tp)...`, i.e. to the argument-tuple components selected by the
index sequence, in sequence order. -/
def forward_args (seq : List Nat) (args : List Int) : List Int :=
  seq.map (fun i => args.getD i 0)

/-- `slot_fn::call(P... args)`: forward to the stored callable `g` exactly
the arguments selected by `suitable_size<F, P...>`.  The sequence — hence the
forwarded arity `K` — is fixed by the template parameters `F, P...` at
registration and never recomputed. -/
def mkSlotCall {ρ : Type} (g : List Int → ρ) (M : Option Nat) (N : Nat) :
    List Int → ρ :=
  fun args => g (forward_args (suitable_size M N) args)

/-! ### Dispatch in the presence of a throwing target

Same loops as `fire_void_calls` / `fire_result`, but a slot's call may throw
(modelled by `Except Nat`, a numeric error code).  A C++ exception unwinds
out of `operator()` at once, so the loop stops at the first error. -/

/-- A slot whose `call` may throw: `efunc args` is either `.ok r` (normal
return) or `.error e` (an exception with code `e`). -/
structure ESlot (ρ : Type) where
  sid : Nat
  efunc : List Int → Except Nat ρ

/-- Whether a call outcome is a normal return. -/
def exOk {ρ : Type} : Except Nat ρ → Bool
  | .ok _ => true
  | .error _ => false

/-- `signal<void(P...)>::operator()` with possibly-throwing targets: walk
`slots_` in order with the null-skip; a throwing call unwinds immediately,
so no later slot is invoked.  Returns the trace of invoked `sid`s (the
throwing slot was invoked, so it is in the trace) and the escaped exception,
if any. -/
def fire_void_exc {ρ : Type} (args : List Int) :
    List (Option (ESlot ρ)) → List Nat × Option Nat
  | [] => ([], none)
  | none :: es => fire_void_exc args es
  | some s :: es =>
    match s.efunc args with
    | .error e => ([s.sid], some e)
    | .ok _ =>
      let rest := fire_void_exc (ρ := ρ) args es
      (s.sid :: rest.1, rest.2)

/-- `signal<R(P...)>::operator()` with possibly-throwing targets: `R{}` on an
empty registry; otherwise run the front loop (an exception there unwinds out
of `operator()` before `back()` is reached), then call `slots_.back()` and
return its result — or let its exception escape. -/
def fire_result_exc {ρ : Type} (zero : ρ) (args : List Int)
    (l : List (Option (ESlot ρ))) : List Nat × Except Nat ρ :=
  match l.getLast? with
  | none => ([], .ok zero)
  | some lastSlot =>
    match fire_void_exc args l.dropLast with
    | (log, some e) => (log, .error e)
    | (log, none) =>
      match lastSlot with
      | none => (log, .ok zero)
      | some s =>
        match s.efunc args with
        | .error e => (log ++ [s.sid], .error e)
        | .ok r => (log ++ [s.sid], .ok r)

/-! ### Dispatch in the presence of re-entrant registry mutation

`signal<R(P...)>::operator()` iterates the member `slots_` itself: the loop
condition re-reads `this->slots_.size()` after every call and the body
re-reads `this->slots_[i]`, so a target that mutates the registry changes the
very container being walked.  To observe this, a slot's behaviour is an
`MAction` interpreted against the live registry state.  `size()` returns
`size_t`, so `size() - 1` is computed modulo `2 ^ 64`. -/

/-- What a target does to the signal it is registered on when invoked. -/
inductive MAction where
  /-- An ordinary target: no registry mutation. -/
  | pure
  /-- A target that calls `disconnect()` (disconnect-all) on the same signal. -/
  | clearAll
deriving DecidableEq

/-- A slot for the re-entrant-mutation model. -/
structure MSlot where
  sid : Nat
  act : MAction
deriving DecidableEq

/-- Effect of invoking slot `s` on the live registry state. -/
def mcall (st : List (Option MSlot)) (s : MSlot) : List (Option MSlot) :=
  match s.act with
  | .pure => st
  | .clearAll => []

/-- `size_t` computation `n - 1`: unsigned wrap-around modulo `2 ^ 64`
(so `0 - 1 = 2 ^ 64 - 1`). -/
def size_t_sub_one (n : Nat) : Nat := (n + 2 ^ 64 - 1) % 2 ^ 64

/-- Outcome of a dispatch pass over the live container. -/
inductive MRes where
  /-- `operator()` returned normally; `log` is the invocation trace and `st`
  the registry state afterwards. -/
  | ret (log : List Nat) (st : List (Option MSlot))
  /-- The pass accessed `slots_[i]` (or `back()`) with no element at that
  position: out-of-bounds access, undefined behavior. -/
  | oob (log : List Nat) (i : Nat)
  /-- Artificial fuel bound exhausted (never reached in the runs below). -/
  | fuelOut
deriving DecidableEq

/-- The front loop of `signal<R(P...)>::operator()` over the LIVE container:
`for (size_t i = 0; i < this->slots_.size() - 1; ++i)` with the null-skip,
where the body's call may mutate `slots_`; both `size()` and `slots_[i]` are
re-read from the current state each iteration. -/
def mfire_front (fuel : Nat) (i : Nat) (st : List (Option MSlot))
    (log : List Nat) : MRes :=
  match fuel with
  | 0 => .fuelOut
  | fuel + 1 =>
    if i < size_t_sub_one st.length then
      match st.get? i with
      | none => .oob log i
      | some none => mfire_front fuel (i + 1) st log
      | some (some s) => mfire_front fuel (i + 1) (mcall st s) (log ++ [s.sid])
    else .ret log st

/-- `signal<R(P...)>::operator()` over the LIVE container: empty check, the
front loop, then `slots_.back()` (re-read from the current state) and its
call. -/
def mfire_result (fuel : Nat) (st : List (Option MSlot)) : MRes :=
  if st.isEmpty then .ret [] st
  else
    match mfire_front fuel 0 st [] with
    | .ret log st1 =>
      match st1.getLast? with
      | none => .oob log (size_t_sub_one st1.length)
      | some none => .ret log st1
      | some (some s) => .ret (log ++ [s.sid]) (mcall st1 s)
    | r => r

/-- Modelled from the spec (sections 5 and 9): snapshot-then-iterate
dispatch — the pass walks the frozen list of slots captured at entry, while
mutations performed by an invoked target apply to the live registry only. -/
def msnap_run (snap : List (Option MSlot)) (st : List (Option MSlot))
    (log : List Nat) : List Nat × List (Option MSlot) :=
  match snap with
  | [] => (log, st)
  | none :: rest => msnap_run rest st log
  | some s :: rest => msnap_run rest (mcall st s) (log ++ [s.sid])

/-- Modelled from the spec: `fire()` with the REQUIRED snapshot semantics —
snapshot `slots_` at entry, then iterate the snapshot. -/
def mfire_spec (st : List (Option MSlot)) : List Nat × List (Option MSlot) :=
  msnap_run st st []

/-! ### Registries reachable through the public interface -/

/-- Registry states reachable from the empty signal using only the public
`connect` / `disconnect` interface of `signal_b`. -/
inductive Reachable {γ φ ρ : Type} [DecidableEq γ] [DecidableEq φ] :
    List (Option (Slot γ φ ρ)) → Prop
  | empty : Reachable []
  | step_connect (s : Slot γ φ ρ) (l) : Reachable l → Reachable (connect s l)
  | step_disc_free (t : Nat) (f : φ) (l) : Reachable l →
      Reachable (disconnect_free t f l)
  | step_disc_bound (t : Nat) (c : γ) (f : φ) (l) : Reachable l →
      Reachable (disconnect_bound t c f l)
  | step_disc_all (l) : Reachable l → Reachable (disconnect_all l)

/-! ### Concrete slots used by the witnesses -/

/-- Concrete free-callable slot "A": identity value 10, returns 1. -/
def slotA : Slot Nat Nat Int := ⟨1, 0, .free 10, fun _ => 1⟩

/-- Concrete free-callable slot "B": identity value 20, returns 2. -/
def slotB : Slot Nat Nat Int := ⟨2, 0, .free 20, fun _ => 2⟩

/-- Concrete free-callable slot "C": identity value 30, returns 3. -/
def slotC : Slot Nat Nat Int := ⟨3, 0, .free 30, fun _ => 3⟩

/-- Concrete bound-method slot: receiver 7, method 40, returns 4. -/
def slotD : Slot Nat Nat Int := ⟨4, 1, .bound 7 40, fun _ => 4⟩

/-- A throwing slot for the fail-fast witness: throws error code 7. -/
def eThrower : ESlot Int := ⟨2, fun _ => .error 7⟩

/-- A normal slot for the fail-fast witness: returns its argument count. -/
def eOk (sid : Nat) : ESlot Int := ⟨sid, fun a => .ok (a.length : Int)⟩

/-! ## Helper lemmas -/

/-- On a registry with no null entries, the void dispatch loop calls every
slot once, in list order. -/
theorem fire_void_calls_map_some {γ φ ρ : Type} (args : List Int)
    (sl : List (Slot γ φ ρ)) :
    fire_void_calls args (sl.map some) = sl.map (fun s => (s.sid, s.func args)) := by
  induction sl with
  | nil => rfl
  | cons s ss ih => simp [fire_void_calls, ih]

/-- The disconnect scan removes exactly the first matching entry, keeping
every other entry in place. -/
theorem disconnect_scan_first {γ φ ρ : Type} (p : Option (Slot γ φ ρ) → Bool)
    (l₁ : List (Option (Slot γ φ ρ))) (e : Option (Slot γ φ ρ)) (l₂)
    (he : p e = true) (h₁ : ∀ x ∈ l₁, p x = false) :
    disconnect_scan p (l₁ ++ e :: l₂) = l₁ ++ l₂ := by
  induction l₁ with
  | nil => simp [disconnect_scan, he]
  | cons a as ih =>
    have ha : p a = false := h₁ a (by simp)
    simp only [List.cons_append, disconnect_scan, ha, if_neg Bool.false_ne_true,
      List.cons.injEq, true_and]
    exact ih fun x hx => h₁ x (by simp [hx])

/-- The disconnect scan is the identity when nothing matches. -/
theorem disconnect_scan_no_match {γ φ ρ : Type} (p : Option (Slot γ φ ρ) → Bool)
    (l : List (Option (Slot γ φ ρ))) (h : ∀ x ∈ l, p x = false) :
    disconnect_scan p l = l := by
  induction l with
  | nil => rfl
  | cons a as ih =>
    have ha : p a = false := h a (by simp)
    simp only [disconnect_scan, ha, if_neg Bool.false_ne_true, List.cons.injEq, true_and]
    exact ih fun x hx => h x (by simp [hx])

/-- Every entry surviving a disconnect scan was in the original registry. -/
theorem mem_disconnect_scan {γ φ ρ : Type} {p : Option (Slot γ φ ρ) → Bool}
    {e : Option (Slot γ φ ρ)} :
    ∀ {l : List (Option (Slot γ φ ρ))}, e ∈ disconnect_scan p l → e ∈ l := by
  intro l
  induction l with
  | nil => simp [disconnect_scan]
  | cons a as ih =>
    simp only [disconnect_scan]
    by_cases hpa : p a
    · simp only [if_pos hpa]
      intro h
      exact List.mem_cons_of_mem a h
    · simp only [if_neg hpa, List.mem_cons]
      rintro (rfl | h)
      · exact Or.inl rfl
      · exact Or.inr (ih h)

/-! ## Claim theorems -/

/-- C5: a fire() on a no-result signal invokes each registered target exactly
once, in registration (insertion) order; in particular, for targets A, B, C
registered in that order the call trace is A, B, C. -/
theorem C5_void_dispatch_in_registration_order {γ φ ρ : Type} (args : List Int)
    (sl : List (Slot γ φ ρ)) :
    fire_void_calls args (sl.map some) = sl.map (fun s => (s.sid, s.func args)) ∧
    (∀ A B C : Slot γ φ ρ,
      fire_void_calls args (connect C (connect B (connect A []))) =
        [(A.sid, A.func args), (B.sid, B.func args), (C.sid, C.func args)]) := by
  refine ⟨fire_void_calls_map_some args sl, fun A B C => ?_⟩
  simp [connect, fire_void_calls]

/-- C6: a fire() on a result-bearing signal with an empty registry invokes
nothing and returns the result type's zero/default value, e.g. 0 for an
integer result. -/
theorem C6_empty_result_dispatch_returns_default {γ φ ρ : Type} (zero : ρ)
    (args : List Int) :
    fire_result zero args ([] : List (Option (Slot γ φ ρ))) = ([], zero) ∧
    fire_result (0 : Int) args ([] : List (Option (Slot Nat Nat Int))) = ([], 0) :=
  ⟨rfl, rfl⟩

/-- C9: disconnect_all (the zero-argument disconnect) empties the registry,
is idempotent, and a subsequent fire() (either overload) invokes nothing. -/
theorem C9_disconnect_all_empties_idempotent {γ φ ρ : Type} (zero : ρ)
    (args : List Int) (l : List (Option (Slot γ φ ρ))) :
    disconnect_all l = [] ∧
    disconnect_all (disconnect_all l) = disconnect_all l ∧
    fire_void_calls args (disconnect_all l) = [] ∧
    fire_result zero args (disconnect_all l) = ([], zero) :=
  ⟨rfl, rfl, rfl, rfl⟩

/-- C2: a fire() on a result-bearing signal with a non-empty registry
(written as L ++ [b], so b is the last-registered entry) invokes every entry
in order — so all side effects occur — and returns the result of the last
entry, the other results being discarded; concretely, with two targets
returning 1 then 2, fire() returns 2 and the trace shows both executed. -/
theorem C2_result_dispatch_all_invoked_returns_last {γ φ ρ : Type} (zero : ρ)
    (args : List Int) (L : List (Slot γ φ ρ)) (b : Slot γ φ ρ) :
    fire_result zero args ((L ++ [b]).map some) =
      ((L ++ [b]).map (fun s => (s.sid, s.func args)), b.func args) ∧
    fire_result (0 : Int) args [some slotA, some slotB] =
      ([(1, 1), (2, 2)], 2) := by
  constructor
  · simp only [fire_result, List.map_append, List.map_cons, List.map_nil,
      List.getLast?_concat, List.dropLast_concat, fire_void_calls_map_some]
  · simp [fire_result, fire_void_calls, slotA, slotB]

/-- C4: both parametrised disconnect overloads scan in registration order and
remove exactly the FIRST entry whose identity matches — value equality of the
stored callable for free-callable entries, value equality of both receiver
and method for bound entries — preserving the relative order of all remaining
entries, so a subsequent fire() sees the survivors in their original order. -/
theorem C4_disconnect_removes_first_match {γ φ ρ : Type} [DecidableEq γ]
    [DecidableEq φ] (args : List Int) (t : Nat) (f : φ)
    (l₁ l₂ : List (Option (Slot γ φ ρ))) (e : Option (Slot γ φ ρ))
    (t' : Nat) (c' : γ) (f' : φ)
    (l₁' l₂' : List (Option (Slot γ φ ρ))) (e' : Option (Slot γ φ ρ))
    (hfree : freeMatch t f e = true)
    (h₁ : ∀ x ∈ l₁, freeMatch t f x = false)
    (hbound : boundMatch t' c' f' e' = true)
    (h₁' : ∀ x ∈ l₁', boundMatch t' c' f' x = false) :
    disconnect_free t f (l₁ ++ e :: l₂) = l₁ ++ l₂ ∧
    disconnect_bound t' c' f' (l₁' ++ e' :: l₂') = l₁' ++ l₂' ∧
    fire_void_calls args (disconnect_free t f (l₁ ++ e :: l₂)) =
      fire_void_calls args (l₁ ++ l₂) := by
  have hf : disconnect_free t f (l₁ ++ e :: l₂) = l₁ ++ l₂ :=
    disconnect_scan_first (freeMatch t f) l₁ e l₂ hfree h₁
  exact ⟨hf, disconnect_scan_first (boundMatch t' c' f') l₁' e' l₂' hbound h₁',
    by rw [hf]⟩

/-- C4 witness: connecting A, B, A and disconnecting A by value removes only
the first occurrence, leaving B, A; a bound disconnect skips the non-matching
free entry and removes the matching bound one. -/
theorem C4_disconnect_removes_first_match_w :
    disconnect_free 0 10 ([] ++ some slotA :: [some slotB, some slotA]) =
      [] ++ [some slotB, some slotA] ∧
    disconnect_bound 1 7 40 ([some slotA] ++ some slotD :: []) =
      [some slotA] ++ [] ∧
    fire_void_calls [5] (disconnect_free 0 10 ([] ++ some slotA :: [some slotB, some slotA])) =
      fire_void_calls [5] ([] ++ [some slotB, some slotA]) :=
  C4_disconnect_removes_first_match [5] 0 10 [] [some slotB, some slotA]
    (some slotA) 1 7 40 [some slotA] [] (some slotD)
    (by decide) (by decide) (by decide) (by decide)

/-- C8: a parametrised disconnect whose argument matches no registered entry
(in either identity form) is a silent no-op: the registry is unchanged and a
subsequent fire() (either overload) behaves identically. -/
theorem C8_disconnect_no_match_noop {γ φ ρ : Type} [DecidableEq γ]
    [DecidableEq φ] (t : Nat) (f : φ) (t' : Nat) (c' : γ) (f' : φ) (zero : ρ)
    (args : List Int) (l : List (Option (Slot γ φ ρ)))
    (hfree : ∀ x ∈ l, freeMatch t f x = false)
    (hbound : ∀ x ∈ l, boundMatch t' c' f' x = false) :
    disconnect_free t f l = l ∧
    disconnect_bound t' c' f' l = l ∧
    fire_void_calls args (disconnect_free t f l) = fire_void_calls args l ∧
    fire_result zero args (disconnect_free t f l) = fire_result zero args l := by
  have hf : disconnect_free t f l = l :=
    disconnect_scan_no_match (freeMatch t f) l hfree
  exact ⟨hf, disconnect_scan_no_match (boundMatch t' c' f') l hbound,
    by rw [hf], by rw [hf]⟩

/-- C8 witness: disconnecting a callable value (and a receiver/method pair)
absent from a two-entry registry leaves it observably unchanged. -/
theorem C8_disconnect_no_match_noop_w :
    disconnect_free 0 99 [some slotA, some slotD] = [some slotA, some slotD] ∧
    disconnect_bound 1 7 41 [some slotA, some slotD] = [some slotA, some slotD] ∧
    fire_void_calls [3] (disconnect_free 0 99 [some slotA, some slotD]) =
      fire_void_calls [3] [some slotA, some slotD] ∧
    fire_result (0 : Int) [3] (disconnect_free 0 99 [some slotA, some slotD]) =
      fire_result (0 : Int) [3] [some slotA, some slotD] :=
  C8_disconnect_no_match_noop 0 99 1 7 41 0 [3] [some slotA, some slotD]
    (by decide) (by decide)

/-- The index sequence 0, ..., K-1 selects exactly the first K arguments, in
their original order. -/
theorem forward_args_range_take (K : Nat) (args : List Int)
    (h : K ≤ args.length) :
    forward_args (List.range K) args = args.take K := by
  apply List.ext_getElem
  · simpa [forward_args] using (Nat.min_eq_left h).symm
  · intro i h₁ h₂
    have hi : i < K := by simpa [forward_args] using h₁
    have hia : i < args.length := lt_of_lt_of_le hi h
    simp [forward_args, List.getElem_take, List.getD_eq_getElem?_getD,
      List.getElem?_eq_getElem hia]

/-- C3: the forwarded arity is K = min(M, N) when the target's declared
parameter count M is statically known and K = N when it is unknown, fixed at
registration from the template parameters alone; a slot's call passes exactly
the first K of the N fire-time arguments, in their original order, to the
stored callable (so M = 0 forwards nothing). -/
theorem C3_arity_prefix_of_args (M N : Nat) (args : List Int)
    (g : List Int → Int) (h : args.length = N) :
    forward_args (suitable_size (some M) N) args = args.take (min M N) ∧
    forward_args (suitable_size none N) args = args ∧
    forward_args (suitable_size (some 0) N) args = [] ∧
    mkSlotCall g (some M) N args = g (args.take (min M N)) := by
  have hK : ∀ K : Nat, K ≤ N → forward_args (List.range K) args = args.take K :=
    fun K hKN => forward_args_range_take K args (h ▸ hKN)
  have h₁ : forward_args (suitable_size (some M) N) args = args.take (min M N) := by
    simpa [suitable_size, traits_count, min_number] using
      hK (min M N) (Nat.min_le_right M N)
  refine ⟨h₁, ?_, ?_, ?_⟩
  · have := hK N le_rfl
    simpa [suitable_size, traits_count, min_number, ← h, List.take_length] using this
  · simp [suitable_size, traits_count, min_number, forward_args]
  · simp [mkSlotCall, h₁]

/-- C3 witness: a target declared with 1 parameter on a 3-parameter signature
receives only the first argument of fire(1, 2, 3). -/
theorem C3_arity_prefix_of_args_w :
    forward_args (suitable_size (some 1) 3) [1, 2, 3] = [1, 2, 3].take (min 1 3) ∧
    forward_args (suitable_size none 3) [1, 2, 3] = [1, 2, 3] ∧
    forward_args (suitable_size (some 0) 3) [1, 2, 3] = [] ∧
    mkSlotCall (fun l => l.headD 0) (some 1) 3 [1, 2, 3] =
      (fun l : List Int => l.headD 0) ([1, 2, 3].take (min 1 3)) :=
  C3_arity_prefix_of_args 1 3 [1, 2, 3] (fun l => l.headD 0) (by decide)

/-- If every slot of a registry returns normally, the void dispatch loop
invokes all of them and no exception escapes. -/
theorem fire_void_exc_all_ok {ρ : Type} (args : List Int) (A : List (ESlot ρ))
    (hA : ∀ s ∈ A, exOk (s.efunc args) = true) :
    fire_void_exc args (A.map some) = (A.map ESlot.sid, none) := by
  induction A with
  | nil => rfl
  | cons a as ih =>
    have hok := hA a (by simp)
    obtain ⟨r, hr⟩ : ∃ r, a.efunc args = .ok r := by
      cases hcase : a.efunc args with
      | ok r => exact ⟨r, rfl⟩
      | error e' => rw [hcase] at hok; simp [exOk] at hok
    simp [fire_void_exc, hr, ih fun s hs => hA s (by simp [hs])]

/-- If the slots before `t` return normally and `t` throws, the void dispatch
loop invokes exactly those slots and `t`, then lets the exception escape:
nothing after `t` runs. -/
theorem fire_void_exc_fail {ρ : Type} (args : List Int) (A B : List (ESlot ρ))
    (t : ESlot ρ) (e : Nat)
    (hA : ∀ s ∈ A, exOk (s.efunc args) = true)
    (ht : t.efunc args = .error e) :
    fire_void_exc args ((A ++ t :: B).map some) =
      (A.map ESlot.sid ++ [t.sid], some e) := by
  induction A with
  | nil => simp [fire_void_exc, ht]
  | cons a as ih =>
    have hok := hA a (by simp)
    obtain ⟨r, hr⟩ : ∃ r, a.efunc args = .ok r := by
      cases hcase : a.efunc args with
      | ok r => exact ⟨r, rfl⟩
      | error e' => rw [hcase] at hok; simp [exOk] at hok
    have ih' := ih fun s hs => hA s (by simp [hs])
    simp only [List.map_append, List.map_cons] at ih' ⊢
    simp [fire_void_exc, hr, ih']

/-- C7: if an invoked target throws during fire(), the exception propagates
out of fire() immediately (both overloads): the targets registered before the
failing one have already executed, the failing target itself was invoked, and
none of the targets registered after it are invoked — fail-fast, never
catch-and-continue. -/
theorem C7_fail_fast_dispatch {ρ : Type} (zero : ρ) (args : List Int)
    (A B : List (ESlot ρ)) (t : ESlot ρ) (e : Nat)
    (hA : ∀ s ∈ A, exOk (s.efunc args) = true)
    (ht : t.efunc args = .error e) :
    fire_void_exc args ((A ++ t :: B).map some) =
      (A.map ESlot.sid ++ [t.sid], some e) ∧
    fire_result_exc zero args ((A ++ t :: B).map some) =
      (A.map ESlot.sid ++ [t.sid], .error e) := by
  refine ⟨fire_void_exc_fail args A B t e hA ht, ?_⟩
  cases B with
  | nil =>
    have hmap : (A ++ [t]).map some = A.map some ++ [some t] := by simp
    rw [fire_result_exc, hmap, List.getLast?_concat, List.dropLast_concat,
      fire_void_exc_all_ok args A hA]
    simp [ht]
  | cons b bs =>
    obtain ⟨x, hx⟩ : ∃ x, ((A ++ t :: b :: bs).map some).getLast? = some x := by
      rw [← Option.isSome_iff_exists, List.getLast?_isSome]
      simp
    have hdrop : ((A ++ t :: b :: bs).map some).dropLast =
        (A ++ t :: (b :: bs).dropLast).map some := by
      rw [← List.map_dropLast,
        List.dropLast_append_of_ne_nil (l := t :: b :: bs) A (by simp),
        List.dropLast_cons₂]
    rw [fire_result_exc, hx, hdrop,
      fire_void_exc_fail args A (b :: bs).dropLast t e hA ht]

/-- C7 witness: with targets ok(1), thrower(2), ok(3), fire() invokes 1 and
2, the exception (code 7) escapes, and target 3 never runs — in both
overloads. -/
theorem C7_fail_fast_dispatch_w :
    fire_void_exc [0] (([eOk 1] ++ eThrower :: [eOk 3]).map some) =
      ([1, 2], some 7) ∧
    fire_result_exc (0 : Int) [0] (([eOk 1] ++ eThrower :: [eOk 3]).map some) =
      ([1, 2], .error 7) :=
  C7_fail_fast_dispatch 0 [0] [eOk 1] [eOk 3] eThrower 7 (by decide) rfl

/-- Every registry reachable through the public interface contains only
non-null slots. -/
theorem reachable_isSome {γ φ ρ : Type} [DecidableEq γ] [DecidableEq φ]
    {l : List (Option (Slot γ φ ρ))} (h : Reachable l) :
    ∀ e ∈ l, e.isSome = true := by
  induction h with
  | empty => simp
  | step_connect s l hl ih =>
    intro e he
    rcases List.mem_append.mp he with h1 | h1
    · exact ih e h1
    · simp only [List.mem_singleton] at h1
      simp [h1]
  | step_disc_free t f l hl ih =>
    intro e he
    exact ih e (mem_disconnect_scan he)
  | step_disc_bound t c f l hl ih =>
    intro e he
    exact ih e (mem_disconnect_scan he)
  | step_disc_all l hl ih =>
    simp [disconnect_all]

/-- C10: in every registry built solely through the public
connect/disconnect interface, every stored entry is a valid (non-null) slot,
so the nullptr-skip branches of both operator() overloads (an entry with
`isNone`) and the branch returning the default value when `back()` is null
(`getLast? = some none`) can never be taken. -/
theorem C10_registry_entries_non_null {γ φ ρ : Type} [DecidableEq γ]
    [DecidableEq φ] (l : List (Option (Slot γ φ ρ))) (h : Reachable l) :
    (∀ e ∈ l, e.isSome = true) ∧
    l.countP (fun e => e.isNone) = 0 ∧
    l.getLast? ≠ some none := by
  have hsome := reachable_isSome h
  refine ⟨hsome, ?_, ?_⟩
  · rw [List.countP_eq_zero]
    intro a ha
    simp [Option.isNone_iff_eq_none]
    intro hnone
    have := hsome a ha
    rw [hnone] at this
    simp at this
  · intro hlast
    have hmem := List.mem_of_mem_getLast? hlast
    have := hsome none hmem
    simp at this

/-- C10 witness: the registry obtained by a connect, a non-matching
disconnect and another connect is null-free. -/
theorem C10_registry_entries_non_null_w :
    (∀ e ∈ connect slotB (disconnect_free 0 99 (connect slotA [])),
      e.isSome = true) ∧
    (connect slotB (disconnect_free 0 99 (connect slotA []))).countP
      (fun e => e.isNone) = 0 ∧
    (connect slotB (disconnect_free 0 99 (connect slotA []))).getLast? ≠
      some none :=
  C10_registry_entries_non_null
    (connect slotB (disconnect_free 0 99 (connect slotA [])))
    (Reachable.step_connect slotB _
      (Reachable.step_disc_free 0 99 _
        (Reachable.step_connect slotA [] Reachable.empty)))

/-- C1: the claim that fire() dispatches from a snapshot taken at entry is
FALSE of the code: `signal<R(P...)>::operator()` walks the member `slots_`
itself, re-reading `size()` and `slots_[i]` after every call.  With two
registered targets of which the first calls disconnect_all() on the same
signal, the modelled pass invokes only the first target and then — because
`size_t(0) - 1` wraps around — accesses `slots_[1]` of the now-empty vector,
an out-of-bounds (undefined-behavior) access; the snapshot dispatch the spec
requires (`mfire_spec`, modelled from the spec) would instead invoke both
targets and leave the registry empty for the next pass. -/
theorem C1_live_container_not_snapshot :
    mfire_result 10 [some ⟨0, .clearAll⟩, some ⟨1, .pure⟩] = .oob [0] 1 ∧
    mfire_spec [some ⟨0, .clearAll⟩, some ⟨1, .pure⟩] = ([0, 1], []) := by
  decide

end Capo
